import Mathlib

/-!
Shallow embedding of the `inslice` repository (Rust): the filter-expression
parser (`src/filter.rs`, `Filter::from_str`), the union evaluator
(`FilterSet::apply`, `FilterSet::is_empty`), and the two slicer loops
(`RowSlicer::slice` in `src/bin/rowslc/main.rs` and `ColSlicer::slice` in
`src/bin/colslc/main.rs`).  Rust strings are embedded as `List Char`,
`u32` values as `Nat` (parse enforces the `u32` bound `2 ^ 32`), and
fallible parsing as `Except`.
-/

namespace Inslice

/-- Embedding of Rust `str::split(':')`: splits into colon-separated
segments, keeping empty segments, so the result is always nonempty
(`""` splits to `[""]`). -/
def splitOnColon : List Char → List (List Char)
  | [] => [[]]
  | c :: cs =>
    if c = ':' then [] :: splitOnColon cs
    else
      match splitOnColon cs with
      | [] => [[c]]
      | t :: ts => (c :: t) :: ts

/-- Embedding of Rust `<u32 as FromStr>::from_str`: an optional leading
`+` sign, then one or more ASCII digits, with the value required to fit
in `u32`; anything else (empty input, a `-` sign, non-digits, overflow)
is a parse failure, modelled as `none`. -/
def parseU32 (s : List Char) : Option Nat :=
  let t := match s with
    | '+' :: rest => rest
    | _ => s
  if t = [] then none
  else if t.all Char.isDigit then
    let v := t.foldl (fun acc c => acc * 10 + (c.toNat - 48)) 0
    if v < 2 ^ 32 then some v else none
  else none

/-- Embedding of `struct Filter { start: u32, end: Option<u32> }` from
`src/filter.rs` (`end` is a Lean keyword, hence `end_`). -/
structure Filter where
  start : Nat
  end_ : Option Nat
  deriving DecidableEq, Repr

/-- Embedding of `enum ParseError` from `src/filter.rs`.  `InvalidFilter`
carries the two numbers interpolated into its reason string
(`"end [e] cannot be before start [s]"`). -/
inductive ParseError where
  | ParseIntFailed : ParseError
  | InvalidFilter : Nat → Nat → ParseError
  deriving DecidableEq, Repr

/-- Embedding of `Filter::from_str` (`src/filter.rs` lines 15–39): split
on `:`, take segment 0 as `start` (empty or missing defaults to 1),
segment 1 as `end` (empty means the open-ended sentinel `Some 0`, a
literal must be `≥ start`, missing means `None`); further segments are
never inspected. -/
def Filter.fromStr (s : List Char) : Except ParseError Filter := do
  let segs := splitOnColon s
  let start ← match segs.get? 0 with
    | some [] => pure 1
    | some n =>
      match parseU32 n with
      | some v => pure v
      | none => throw ParseError.ParseIntFailed
    | none => pure 1
  let e ← match segs.get? 1 with
    | some [] => pure (some 0)
    | some n =>
      match parseU32 n with
      | some v =>
        if v < start then throw (ParseError.InvalidFilter v start)
        else pure (some v)
      | none => throw ParseError.ParseIntFailed
    | none => pure none
  pure ⟨start, e⟩

/-- Embedding of `struct FilterSet(Vec<Filter>)`. -/
structure FilterSet where
  filters : List Filter
  deriving DecidableEq, Repr

/-- Embedding of `FilterSet::new`. -/
def FilterSet.new (l : List Filter) : FilterSet := ⟨l⟩

/-- Loop body of `FilterSet::apply` (`src/filter.rs` lines 72–88) over
the remaining filters: skip a filter whose `start` is after `index`,
return `true` on the first filter whose `end` test matches, fall
through to `false`. -/
def applyList (index : Nat) : List Filter → Bool
  | [] => false
  | f :: rest =>
    if index < f.start then applyList index rest
    else if (match f.end_ with
      | some 0 => true
      | some n => decide (index ≤ n)
      | none => decide (index = f.start)) then true
    else applyList index rest

/-- Embedding of `FilterSet::apply`. -/
def FilterSet.apply (fs : FilterSet) (index : Nat) : Bool :=
  applyList index fs.filters

/-- Embedding of `FilterSet::is_empty`. -/
def FilterSet.is_empty (fs : FilterSet) : Bool :=
  fs.filters.isEmpty

/-- Loop of `RowSlicer::slice` (`src/bin/rowslc/main.rs` lines 84–105)
with the mutable `index` counter made explicit: the input stream is the
list of lines as `read_line` returns them (terminators included), the
output is the concatenation of the bytes written.  A line is written
verbatim when the set is empty or `apply (1 + index)` holds; `index`
starts at 0 and increments once per line. -/
def RowSlicer.sliceFrom (fs : FilterSet) : Nat → List (List Char) → List Char
  | _, [] => []
  | index, line :: rest =>
    (if fs.is_empty || fs.apply (1 + index) then line else [])
      ++ RowSlicer.sliceFrom fs (index + 1) rest

/-- Embedding of `RowSlicer::slice`: the loop starting at `index = 0`. -/
def RowSlicer.slice (fs : FilterSet) (lines : List (List Char)) : List Char :=
  RowSlicer.sliceFrom fs 0 lines

/-- Embedding of Rust `str::split_whitespace` via an explicit
accumulator: maximal runs of non-whitespace characters, in order,
whitespace runs discarded.  Rust's `char::is_whitespace` is modelled by
`Char.isWhitespace`. -/
def splitWhitespaceAux : List Char → List Char → List (List Char)
  | acc, [] => if acc = [] then [] else [acc.reverse]
  | acc, c :: cs =>
    if c.isWhitespace then
      if acc = [] then splitWhitespaceAux [] cs
      else acc.reverse :: splitWhitespaceAux [] cs
    else splitWhitespaceAux (c :: acc) cs

/-- Rust `str::split_whitespace` on a line. -/
def splitWhitespace (s : List Char) : List (List Char) :=
  splitWhitespaceAux [] s

/-- Loop of `ColSlicer::slice` (`src/bin/colslc/main.rs` lines 64–92):
an empty set passes the line through verbatim; otherwise the line's
whitespace tokens are enumerated from 0, kept when `apply (1 + index)`
holds, joined with `" "` and written with `writeln!` (one `\n`). -/
def ColSlicer.slice (fs : FilterSet) : List (List Char) → List Char
  | [] => []
  | line :: rest =>
    (if fs.is_empty then line
     else
       List.intercalate [' ']
         ((((splitWhitespace line).enum).filter
             (fun p => fs.apply (1 + p.1))).map Prod.snd)
         ++ ['\n'])
      ++ ColSlicer.slice fs rest

/-! ### Proof-side restatements of the source functions -/

/-- Proof-side restatement of the `end` half of `Filter::from_str` with
the monadic plumbing unfolded (see `fromStr_eq_model`). -/
def fromStrEnd (s : List Char) (start : Nat) : Except ParseError Filter :=
  match (splitOnColon s).get? 1 with
  | some [] => Except.ok ⟨start, some 0⟩
  | some n =>
    match parseU32 n with
    | some v =>
      if v < start then Except.error (ParseError.InvalidFilter v start)
      else Except.ok ⟨start, some v⟩
    | none => Except.error ParseError.ParseIntFailed
  | none => Except.ok ⟨start, none⟩

/-- Proof-side restatement of `Filter::from_str` with the monadic
plumbing unfolded (see `fromStr_eq_model`). -/
def fromStrModel (s : List Char) : Except ParseError Filter :=
  match (splitOnColon s).get? 0 with
  | some [] => fromStrEnd s 1
  | some n =>
    match parseU32 n with
    | some v => fromStrEnd s v
    | none => Except.error ParseError.ParseIntFailed
  | none => fromStrEnd s 1

/-! ### Spec-side definitions (from the specification's words) -/

/-- Rejoins colon-separated segments with `':'`; used to state that the
parser ignores everything after the second segment (truncating a string
to its first two segments is `joinColon` of `take 2` of its split). -/
def joinColon : List (List Char) → List Char
  | [] => []
  | [a] => a
  | a :: rest => a ++ ':' :: joinColon rest

/-- Spec-side description of row mode: the lines, indexed 1-based, that
are retained (`FilterSet` empty or `apply` at the 1-based index),
concatenated verbatim in their original order. -/
def rowSliceSpec (fs : FilterSet) (lines : List (List Char)) : List Char :=
  (((List.enumFrom 1 lines).filter
      (fun p => fs.is_empty || fs.apply p.1)).map Prod.snd).join

/-- Spec-side description of column mode for one line: verbatim
pass-through when the set is empty; otherwise exactly the
whitespace-delimited tokens whose 1-based position satisfies `apply`,
joined with one space and terminated with one newline. -/
def colSliceLineSpec (fs : FilterSet) (line : List Char) : List Char :=
  if fs.is_empty then line
  else
    List.intercalate [' ']
        (((List.enumFrom 1 (splitWhitespace line)).filter
            (fun p => fs.apply p.1)).map Prod.snd)
      ++ ['\n']

/-- Spec-side membership predicate for a single filter, per the spec's
description of `apply`: a position `p` matches `f` iff `p ≥ f.start`
and the end field allows it (open-ended sentinel, inclusive nonzero
upper bound, or exact match). -/
def filterMatches (f : Filter) (p : Nat) : Prop :=
  f.start ≤ p ∧
    (f.end_ = some 0 ∨
      (∃ n, f.end_ = some n ∧ 0 < n ∧ p ≤ n) ∨
      (f.end_ = none ∧ p = f.start))

/-! ### Helper lemmas -/

lemma applyList_iff (p : Nat) (l : List Filter) :
    applyList p l = true ↔ ∃ f ∈ l, filterMatches f p := by
  induction l with
  | nil => simp [applyList]
  | cons f rest ih =>
    rcases f with ⟨st, e⟩
    have hcases : applyList p (⟨st, e⟩ :: rest) = true ↔
        (filterMatches ⟨st, e⟩ p ∨ applyList p rest = true) := by
      rcases e with _ | n
      · by_cases h1 : p < st <;> by_cases h2 : p = st <;>
          simp [applyList, filterMatches, h1, h2] <;> omega
      · rcases n with _ | m
        · by_cases h1 : p < st <;>
            simp [applyList, filterMatches, h1] <;> omega
        · by_cases h1 : p < st <;> by_cases h2 : p ≤ m + 1 <;>
            simp [applyList, filterMatches, h1, h2] <;> omega
    rw [hcases, ih]
    simp [List.mem_cons, exists_eq_or_imp]

lemma applyList_append (p : Nat) (l1 l2 : List Filter) :
    applyList p (l1 ++ l2) = (applyList p l1 || applyList p l2) := by
  induction l1 with
  | nil => simp [applyList]
  | cons f rest ih =>
    simp only [List.cons_append, applyList]
    by_cases h : p < f.start
    · simp [h, ih]
    · simp only [if_neg h]
      split <;> simp [ih]

lemma splitOnColon_ne_nil (s : List Char) : splitOnColon s ≠ [] := by
  induction s with
  | nil => simp [splitOnColon]
  | cons c cs ih =>
    simp only [splitOnColon]
    split
    · simp
    · cases h : splitOnColon cs <;> simp

lemma not_colon_mem_splitOnColon (s t : List Char) (ht : t ∈ splitOnColon s) :
    ':' ∉ t := by
  induction s generalizing t with
  | nil =>
    simp only [splitOnColon, List.mem_singleton] at ht
    simp [ht]
  | cons c cs ih =>
    simp only [splitOnColon] at ht
    by_cases hc : c = ':'
    · rw [if_pos hc] at ht
      rcases List.mem_cons.mp ht with rfl | h
      · simp
      · exact ih t h
    · rw [if_neg hc] at ht
      rcases hsp : splitOnColon cs with _ | ⟨u, us⟩
      · exact absurd hsp (splitOnColon_ne_nil cs)
      · rw [hsp] at ht
        rcases List.mem_cons.mp ht with rfl | h
        · have hu : ':' ∉ u := ih u (hsp ▸ List.mem_cons_self u us)
          simp only [List.mem_cons, not_or]
          exact ⟨fun hy => hc hy.symm, hu⟩
        · exact ih t (hsp ▸ List.mem_cons_of_mem u h)

lemma splitOnColon_no_colon (s : List Char) (h : ':' ∉ s) :
    splitOnColon s = [s] := by
  induction s with
  | nil => rfl
  | cons c cs ih =>
    have hc : ¬ (c = ':') := fun hc => h (hc ▸ List.mem_cons_self c cs)
    have hcs : ':' ∉ cs := fun hm => h (List.mem_cons_of_mem c hm)
    simp only [splitOnColon, if_neg hc, ih hcs]

lemma splitOnColon_append (a b : List Char) (h : ':' ∉ a) :
    splitOnColon (a ++ ':' :: b) = a :: splitOnColon b := by
  induction a with
  | nil => simp [splitOnColon]
  | cons c a' ih =>
    have hc : ¬ (c = ':') := fun hc => h (hc ▸ List.mem_cons_self c a')
    have ha' : ':' ∉ a' := fun hm => h (List.mem_cons_of_mem c hm)
    simp only [List.cons_append, splitOnColon, if_neg hc, List.append_eq,
      ih ha']

lemma fromStr_eq_model (s : List Char) : Filter.fromStr s = fromStrModel s := by
  simp only [Filter.fromStr, fromStrModel, fromStrEnd]
  repeat' split
  all_goals first
    | rfl
    | exact if_pos (by assumption)
    | exact if_neg (by assumption)

lemma parseU32_nil : parseU32 [] = none := rfl

lemma parseU32_ne_nil (t : List Char) (n : Nat) (h : parseU32 t = some n) :
    t ≠ [] := fun ht => by rw [ht, parseU32_nil] at h; cases h

lemma fromStrEnd_ok_start (s : List Char) (st : Nat) (f : Filter)
    (h : fromStrEnd s st = .ok f) : f.start = st := by
  unfold fromStrEnd at h
  split at h
  · cases h; rfl
  · split at h
    · split at h
      · cases h
      · cases h; rfl
    · cases h
  · cases h; rfl

lemma fromStr_two_segs (a b : List Char) (ha : ':' ∉ a) (hb : ':' ∉ b)
    (hane : a ≠ []) (hbne : b ≠ []) :
    Filter.fromStr (a ++ ':' :: b) =
      (match parseU32 a with
       | some n =>
         match parseU32 b with
         | some m =>
           if m < n then Except.error (ParseError.InvalidFilter m n)
           else Except.ok ⟨n, some m⟩
         | none => Except.error ParseError.ParseIntFailed
       | none => Except.error ParseError.ParseIntFailed) := by
  have hsegs : splitOnColon (a ++ ':' :: b) = [a, b] := by
    rw [splitOnColon_append a b ha, splitOnColon_no_colon b hb]
  rw [fromStr_eq_model]
  unfold fromStrModel fromStrEnd
  rw [hsegs]
  rcases a with _ | ⟨c, a'⟩
  · exact absurd rfl hane
  rcases b with _ | ⟨d, b'⟩
  · exact absurd rfl hbne
  simp only [List.get?]
  repeat' split
  all_goals simp_all

lemma fromStr_seg_colon (t : List Char) (ht : ':' ∉ t) (htne : t ≠ []) :
    Filter.fromStr (t ++ [':']) =
      (match parseU32 t with
       | some v => Except.ok ⟨v, some 0⟩
       | none => Except.error ParseError.ParseIntFailed) := by
  have hsegs : splitOnColon (t ++ ':' :: []) = [t, []] := by
    rw [splitOnColon_append t [] ht]
    rfl
  rw [fromStr_eq_model]
  unfold fromStrModel fromStrEnd
  rw [hsegs]
  rcases t with _ | ⟨c, t'⟩
  · exact absurd rfl htne
  simp only [List.get?]
  repeat' split
  all_goals simp_all

lemma fromStr_colon_seg (t : List Char) (ht : ':' ∉ t) (htne : t ≠ []) :
    Filter.fromStr (':' :: t) =
      (match parseU32 t with
       | some v =>
         if v < 1 then Except.error (ParseError.InvalidFilter v 1)
         else Except.ok ⟨1, some v⟩
       | none => Except.error ParseError.ParseIntFailed) := by
  have hsegs : splitOnColon (':' :: t) = [[], t] := by
    simp [splitOnColon, splitOnColon_no_colon t ht]
  rw [fromStr_eq_model]
  unfold fromStrModel fromStrEnd
  rw [hsegs]
  rcases t with _ | ⟨c, t'⟩
  · exact absurd rfl htne
  simp only [List.get?]
  repeat' split
  all_goals simp_all

lemma fromStr_exact (t : List Char) (n : Nat) (ht : ':' ∉ t)
    (hn : parseU32 t = some n) : Filter.fromStr t = .ok ⟨n, none⟩ := by
  rcases t with _ | ⟨c, t'⟩
  · exact absurd rfl (parseU32_ne_nil [] n hn)
  · have hsegs : splitOnColon (c :: t') = [c :: t'] :=
      splitOnColon_no_colon _ ht
    rw [fromStr_eq_model]
    simp [fromStrModel, fromStrEnd, hsegs, hn]

/-! ### Claim theorems -/

/-- C1: for every `FilterSet` and every position `p ≥ 1`, `apply p`
returns `true` iff some contained filter `f` satisfies `p ≥ f.start`
and (`f.end = Some 0`, or `f.end = Some n` with `n > 0` and `p ≤ n`,
or `f.end = None` and `p = f.start`): `apply` decides membership in
the union of the contained filters. -/
theorem apply_iff_exists_filter_matches (fs : FilterSet) (p : Nat)
    (hp : 1 ≤ p) :
    fs.apply p = true ↔ ∃ f ∈ fs.filters, filterMatches f p :=
  applyList_iff p fs.filters

theorem apply_iff_exists_filter_matches_witness :
    1 ≤ 3 ∧ ((FilterSet.new [⟨2, some 5⟩]).apply 3 = true ↔
      ∃ f ∈ [Filter.mk 2 (some 5)], filterMatches f 3) :=
  ⟨by decide, apply_iff_exists_filter_matches (FilterSet.new [⟨2, some 5⟩]) 3 (by decide)⟩

/-- C4 counterexample: the input `"0"` parses successfully to
`{start := 0, end := none}`, whose `start` is not `≥ 1` — parsing does
not enforce `start ≥ 1` at construction. -/
theorem fromStr_zero_start_counterexample :
    Filter.fromStr "0".toList = .ok ⟨0, none⟩ ∧
      ¬ 1 ≤ (Filter.mk 0 none).start :=
  ⟨rfl, by decide⟩

/-- C4 (amended): parsing defaults `start` to `1` exactly when the
leading colon-separated segment is empty; otherwise `start` is the
parsed value of that segment, which may be `0` — the parser never
checks `start ≥ 1`. -/
theorem fromStr_start_amended (s : List Char) (f : Filter)
    (h : Filter.fromStr s = .ok f) :
    ((splitOnColon s).headI = [] → f.start = 1) ∧
      ((splitOnColon s).headI ≠ [] →
        parseU32 ((splitOnColon s).headI) = some f.start) := by
  rw [fromStr_eq_model] at h
  unfold fromStrModel at h
  rcases hsp : splitOnColon s with _ | ⟨t0, rest⟩
  · exact absurd hsp (splitOnColon_ne_nil s)
  rw [hsp] at h
  rcases t0 with _ | ⟨c, t0'⟩
  · have h1 : fromStrEnd s 1 = .ok f := h
    exact ⟨fun _ => fromStrEnd_ok_start s 1 f h1, fun hne => absurd rfl hne⟩
  · have h1 : (match parseU32 (c :: t0') with
        | some v => fromStrEnd s v
        | none => Except.error ParseError.ParseIntFailed) = .ok f := h
    refine ⟨fun heq => List.noConfusion heq, fun _ => ?_⟩
    rcases hp : parseU32 (c :: t0') with _ | v
    · rw [hp] at h1; cases h1
    · rw [hp] at h1
      have h2 : fromStrEnd s v = .ok f := h1
      simp only [List.headI]
      rw [hp, fromStrEnd_ok_start s v f h2]

theorem fromStr_start_amended_witness :
    ((splitOnColon "0".toList).headI = [] → (Filter.mk 0 none).start = 1) ∧
      ((splitOnColon "0".toList).headI ≠ [] →
        parseU32 ((splitOnColon "0".toList).headI)
          = some (Filter.mk 0 none).start) :=
  fromStr_start_amended "0".toList ⟨0, none⟩ rfl

/-- C5: for a string `a ++ ":" ++ b` whose two segments are single
colon-free tokens, if both parse as `u32` literals `n`, `m` then the
parse yields `{start := n, end := some m}` when `m ≥ n` and the
invalid-range error `InvalidFilter` when `m < n`; if either (nonempty)
token is not a valid `u32` literal the parse fails with
`ParseIntFailed`. -/
theorem fromStr_range_spec (a b : List Char)
    (ha : ':' ∉ a) (hb : ':' ∉ b) (hane : a ≠ []) (hbne : b ≠ []) :
    (∀ n m : Nat, parseU32 a = some n → parseU32 b = some m →
        ((n ≤ m → Filter.fromStr (a ++ ':' :: b) = .ok ⟨n, some m⟩) ∧
          (m < n → Filter.fromStr (a ++ ':' :: b)
            = .error (.InvalidFilter m n)))) ∧
      ((parseU32 a = none ∨ parseU32 b = none) →
        Filter.fromStr (a ++ ':' :: b) = .error .ParseIntFailed) := by
  have hcomp := fromStr_two_segs a b ha hb hane hbne
  constructor
  · intro n m hn hm
    rw [hn, hm] at hcomp
    have h2 : Filter.fromStr (a ++ ':' :: b) =
        if m < n then Except.error (ParseError.InvalidFilter m n)
        else Except.ok ⟨n, some m⟩ := hcomp
    constructor
    · intro hle
      rw [h2, if_neg (Nat.not_lt.mpr hle)]
    · intro hlt
      rw [h2, if_pos hlt]
  · rintro (hna | hnb)
    · rw [hna] at hcomp
      exact hcomp
    · rcases hpa : parseU32 a with _ | n
      · rw [hpa] at hcomp
        exact hcomp
      · rw [hpa, hnb] at hcomp
        exact hcomp

theorem fromStr_range_spec_witness :
    Filter.fromStr "4:2".toList = .error (.InvalidFilter 2 4) :=
  ((fromStr_range_spec ['4'] ['2'] (by decide) (by decide) (by decide)
    (by decide)).1 4 2 rfl rfl).2 (by decide)

/-- C6 counterexample: `'0'` is a valid unsigned-integer literal, yet
`":0"` does not parse to `{start := 1, end := some 0}` — it fails with
the invalid-range error because the explicit end literal `0` is below
the defaulted `start = 1`. -/
theorem fromStr_colon_zero_counterexample :
    parseU32 "0".toList = some 0 ∧
      Filter.fromStr ":0".toList ≠ .ok ⟨1, some 0⟩ ∧
      Filter.fromStr ":0".toList = .error (.InvalidFilter 0 1) :=
  ⟨rfl, fun h => Except.noConfusion h, rfl⟩

/-- C6 (amended): for every valid `u32` literal `t` with value `n`:
`"t:"` parses to `{start := n, end := some 0}` (open-ended sentinel);
`":t"` parses to `{start := 1, end := some n}` when `n ≥ 1` but fails
with the invalid-range error when `n = 0`; `":"` parses to
`{start := 1, end := some 0}`; and `"t"` (no colon) parses to
`{start := n, end := none}`. -/
theorem fromStr_open_forms_amended (t : List Char) (n : Nat)
    (ht : ':' ∉ t) (hn : parseU32 t = some n) :
    Filter.fromStr (t ++ [':']) = .ok ⟨n, some 0⟩ ∧
      (1 ≤ n → Filter.fromStr (':' :: t) = .ok ⟨1, some n⟩) ∧
      (n = 0 → Filter.fromStr (':' :: t) = .error (.InvalidFilter 0 1)) ∧
      Filter.fromStr [':'] = .ok ⟨1, some 0⟩ ∧
      Filter.fromStr t = .ok ⟨n, none⟩ := by
  have htne : t ≠ [] := parseU32_ne_nil t n hn
  refine ⟨?_, ?_, ?_, rfl, fromStr_exact t n ht hn⟩
  · rw [fromStr_seg_colon t ht htne, hn]
  · intro h1
    rw [fromStr_colon_seg t ht htne, hn]
    exact if_neg (by omega)
  · intro h0
    subst h0
    rw [fromStr_colon_seg t ht htne, hn]
    exact if_pos (by decide)

theorem fromStr_open_forms_amended_witness :
    Filter.fromStr "7:".toList = .ok ⟨7, some 0⟩ ∧
      Filter.fromStr ":7".toList = .ok ⟨1, some 7⟩ :=
  ⟨(fromStr_open_forms_amended ['7'] 7 (by decide) rfl).1,
    (fromStr_open_forms_amended ['7'] 7 (by decide) rfl).2.1 (by decide)⟩

/-- C7: `FilterSet.apply` is a pure union — for every position `p` and
filters `A`, `B`, applying the two-filter set equals the disjunction of
applying each singleton set. -/
theorem apply_pair_is_union (p : Nat) (A B : Filter) :
    (FilterSet.new [A, B]).apply p
      = ((FilterSet.new [A]).apply p || (FilterSet.new [B]).apply p) := by
  have h := applyList_append p [A] [B]
  simpa [FilterSet.new, FilterSet.apply] using h

/-- C8: the empty `FilterSet` rejects every position (`apply` is
constantly `false` with zero filters), and `is_empty` is `true` exactly
when the set holds zero filters — "retain everything" on an empty set
is a caller-side special case. -/
theorem apply_empty_false_and_isEmpty (p : Nat) (fs : FilterSet) :
    (FilterSet.new []).apply p = false ∧
      (fs.is_empty = true ↔ fs.filters = []) := by
  refine ⟨rfl, ?_⟩
  rcases fs with ⟨l⟩
  cases l <;> simp [FilterSet.is_empty]

/-- C10: `"0:0"` parses successfully to `{start := 0, end := some 0}` —
the explicit end literal `0` passes the `end < start` check when
`start = 0` and then reads as the open-ended sentinel — and the
resulting filter matches every position `p ≥ 1`. -/
theorem fromStr_zero_zero_matches_all :
    Filter.fromStr "0:0".toList = .ok ⟨0, some 0⟩ ∧
      ∀ p : Nat, 1 ≤ p → (FilterSet.new [⟨0, some 0⟩]).apply p = true := by
  refine ⟨rfl, fun p hp => ?_⟩
  simp [FilterSet.new, FilterSet.apply, applyList]

theorem fromStr_zero_zero_matches_all_witness :
    1 ≤ 5 ∧ (FilterSet.new [⟨0, some 0⟩]).apply 5 = true :=
  ⟨by decide, fromStr_zero_zero_matches_all.2 5 (by decide)⟩

/-- C9: parsing ignores everything after the second colon-separated
segment — every string parses identically to its truncation to the
first two segments (e.g. `"1:2:3"` parses as `"1:2"`), with no error
for the extra segments. -/
theorem fromStr_ignores_extra_segments (s : List Char) :
    Filter.fromStr s = Filter.fromStr (joinColon ((splitOnColon s).take 2)) := by
  rcases hsp : splitOnColon s with _ | ⟨t0, rest⟩
  · exact absurd hsp (splitOnColon_ne_nil s)
  rcases rest with _ | ⟨t1, rest'⟩
  · have h0 : ':' ∉ t0 :=
      not_colon_mem_splitOnColon s t0 (hsp ▸ List.mem_cons_self _ _)
    have hsp0 : splitOnColon t0 = [t0] := splitOnColon_no_colon t0 h0
    rw [fromStr_eq_model, fromStr_eq_model]
    unfold fromStrModel fromStrEnd
    simp only [List.take, joinColon]
    rw [hsp, hsp0]
  · have h0 : ':' ∉ t0 :=
      not_colon_mem_splitOnColon s t0 (hsp ▸ List.mem_cons_self _ _)
    have h1 : ':' ∉ t1 :=
      not_colon_mem_splitOnColon s t1
        (hsp ▸ List.mem_cons_of_mem t0 (List.mem_cons_self t1 rest'))
    have hj : splitOnColon (t0 ++ ':' :: t1) = [t0, t1] := by
      rw [splitOnColon_append t0 t1 h0, splitOnColon_no_colon t1 h1]
    rw [fromStr_eq_model, fromStr_eq_model]
    unfold fromStrModel fromStrEnd
    simp only [List.take, joinColon]
    rw [hsp, hj]
    simp [List.get?]

lemma sliceFrom_eq_enumFrom (fs : FilterSet) (lines : List (List Char)) :
    ∀ k, RowSlicer.sliceFrom fs k lines =
      (((List.enumFrom (k + 1) lines).filter
          (fun p => fs.is_empty || fs.apply p.1)).map Prod.snd).join := by
  induction lines with
  | nil => intro k; rfl
  | cons line rest ih =>
    intro k
    simp only [RowSlicer.sliceFrom, List.enumFrom, List.filter]
    rw [Nat.add_comm 1 k]
    by_cases h : (fs.is_empty || fs.apply (k + 1)) = true
    · simp [h, ih (k + 1)]
    · simp only [Bool.not_eq_true] at h
      simp [h, ih (k + 1)]

/-- C2: row mode — the output is exactly the concatenation, in original
order, of the lines (verbatim, terminators included) whose 1-based
index `i` satisfies "the `FilterSet` is empty or `apply i` is true". -/
theorem rowSlicer_slice_eq_spec (fs : FilterSet) (lines : List (List Char)) :
    RowSlicer.slice fs lines = rowSliceSpec fs lines :=
  sliceFrom_eq_enumFrom fs lines 0

lemma enumFrom_filter_shift {α : Type} (cond : Nat → Bool) (l : List α) :
    ∀ k, (((List.enumFrom k l).filter (fun p => cond (1 + p.1))).map Prod.snd)
      = (((List.enumFrom (k + 1) l).filter (fun p => cond p.1)).map Prod.snd) := by
  induction l with
  | nil => intro k; rfl
  | cons a rest ih =>
    intro k
    simp only [List.enumFrom, List.filter]
    rw [Nat.add_comm 1 k]
    by_cases h : cond (k + 1) = true
    · simp [h, ih (k + 1)]
    · simp only [Bool.not_eq_true] at h
      simp [h, ih (k + 1)]

/-- C3: column mode — each line is emitted verbatim when the
`FilterSet` is empty; otherwise exactly the whitespace-delimited
tokens whose 1-based index satisfies `apply` are emitted, joined by a
single space and terminated with one newline (spacing and line-ending
normalized even when every token is kept). -/
theorem colSlicer_slice_eq_spec (fs : FilterSet) (lines : List (List Char)) :
    ColSlicer.slice fs lines = (lines.map (colSliceLineSpec fs)).join := by
  induction lines with
  | nil => rfl
  | cons line rest ih =>
    simp only [ColSlicer.slice, List.map, List.join, colSliceLineSpec, ih]
    congr 1
    by_cases h : fs.is_empty
    · simp [h]
    · simp only [h, if_false, List.enum]
      rw [enumFrom_filter_shift (fun i => fs.apply i) (splitWhitespace line) 0]

end Inslice
